import Mathlib

/-!
Verification of the contact-driven audio identity layer
(`vima_bench/env/wrappers/audio_identity.py`, class `AudioIdentityWrapper`).

The wrapper is embedded shallowly:
* python dicts become association lists (`alookup` / `aset` model `d[k]` /
  `d.get` / `d[k] = v`);
* `time.time()` becomes an explicit rational `now` parameter of `step`;
* the seeded numpy generator `np.random.default_rng(42)` becomes an abstract
  stream `g : ℕ → ℚ` together with a position counter `rngPos`; drawing a
  normal vector of size `d` reads `d` consecutive stream values and advances
  the counter (this captures exactly what the claims need: the draw sequence
  is a function of the seed and of how much has been consumed, and the
  generator is never re-seeded);
* the detached sound playback (`subprocess.Popen`) has no effect on any state
  the wrapper keeps, so it is omitted;
* `p.getContactPoints()` becomes an explicit list of body-id pairs
  `(cp[1], cp[2])` passed to `step`.
-/

namespace VimaAudio

/-- First-match lookup in an association list, modelling python `dict`
membership / indexing (dict keys are unique, so first match is the match). -/
def alookup {α β : Type} [DecidableEq α] : List (α × β) → α → Option β
  | [], _ => none
  | (k, v) :: rest, k' => if k' = k then some v else alookup rest k'

/-- Dictionary assignment `m[k] = v`: any previous binding of `k` is replaced. -/
def aset {α β : Type} [DecidableEq α] (m : List (α × β)) (k : α) (v : β) :
    List (α × β) :=
  m.filter (fun p => decide (p.1 ≠ k)) ++ [(k, v)]

/-- One entry of `self.audio_events` (the dict literal appended in `step`). -/
structure ContactEvent where
  step : ℕ
  object_id : ℕ
  sound : String
  other_body : ℕ
  tool_touch : Bool
deriving DecidableEq

/-- Values stored in the `info` dictionary returned by `step`. -/
inductive Val where
  | nat : ℕ → Val
  | rat : ℚ → Val
  | str : String → Val
  | events : List ContactEvent → Val
  | idMap : List (ℕ × Option String) → Val
  | embMap : List (ℕ × List ℚ) → Val
deriving DecidableEq

/-- Constructor-time configuration of `AudioIdentityWrapper` (`__init__`
arguments plus the hard-coded `emb_dim = 128` and the seeded generator's
stream `g`). A label of `none` is python `None`, i.e. a silent object. -/
structure Cfg where
  object_sound_map : List (ℕ × Option String)
  cooldown : ℚ
  ignore_bodies : List ℕ
  tool_bodies : List ℕ
  terminate_on_silent_touch : Bool
  silent_penalty : ℚ
  emb_dim : ℕ
  g : ℕ → ℚ

/-- Mutable state of the wrapper instance. -/
structure WrapperState where
  last_play_time : List (ℕ × ℚ)
  audio_events : List ContactEvent
  step_count : ℕ
  rngPos : ℕ
  audio_obj_emb : List (ℕ × List ℚ)
deriving DecidableEq

/-- `AudioIdentityWrapper.__init__`: it stores the configuration and starts
with empty state; notably it performs no validation of the identity map
against the ignore- or tool-sets. -/
def mkCfg (g : ℕ → ℚ) (object_sound_map : List (ℕ × Option String))
    (cooldown : ℚ) (ignore_bodies tool_bodies : List ℕ)
    (terminate_on_silent_touch : Bool) (silent_penalty : ℚ) : Cfg :=
  { object_sound_map := object_sound_map
    cooldown := cooldown
    ignore_bodies := ignore_bodies
    tool_bodies := tool_bodies
    terminate_on_silent_touch := terminate_on_silent_touch
    silent_penalty := silent_penalty
    emb_dim := 128
    g := g }

/-- Initial wrapper state after `__init__` (`last_play_time = {}`,
`audio_events = []`, `step_count = 0`, fresh generator, `audio_obj_emb = {}`). -/
def mkState : WrapperState :=
  { last_play_time := []
    audio_events := []
    step_count := 0
    rngPos := 0
    audio_obj_emb := [] }

/-- The cooldown test in `step`: the emission is allowed unless
`now - last < cooldown`, where `last = self.last_play_time.get(hit_id, 0.0)`. -/
def cooldownAllow (cooldown : ℚ) (lpt : List (ℕ × ℚ)) (oid : ℕ) (now : ℚ) :
    Bool :=
  decide (¬ (now - ((alookup lpt oid).getD 0) < cooldown))

/-- Loop-local state of one `step` call: the two persistent dictionaries it
mutates plus the `silent_violation` flag initialised to `False`. -/
structure LoopSt where
  last_play_time : List (ℕ × ℚ)
  audio_events : List ContactEvent
  silent_violation : Bool
deriving DecidableEq

/-- The body of the inner `for hit_id, other_id in ((body_a, body_b),
(body_b, body_a))` loop of `AudioIdentityWrapper.step`. -/
def procHit (cfg : Cfg) (sc : ℕ) (now : ℚ) (s : LoopSt)
    (hit_id other_id : ℕ) : LoopSt :=
  match alookup cfg.object_sound_map hit_id with
  | none => s
  | some sound_label =>
    let tool_touch : Bool := decide (other_id ∈ cfg.tool_bodies)
    let object_touch : Bool := decide (other_id ∉ cfg.ignore_bodies)
    if (tool_touch || object_touch) = false then s
    else
      match sound_label with
      | none => if tool_touch then { s with silent_violation := true } else s
      | some sound =>
        if cooldownAllow cfg.cooldown s.last_play_time hit_id now = false then s
        else
          { s with
            audio_events := s.audio_events ++
              [⟨sc, hit_id, sound, other_id, tool_touch⟩]
            last_play_time := aset s.last_play_time hit_id now }

/-- Processing of one contact point `(body_a, body_b)`: pairs touching an
ignored body are discarded outright, otherwise both orderings are tried. -/
def procPair (cfg : Cfg) (sc : ℕ) (now : ℚ) (s : LoopSt)
    (body_a body_b : ℕ) : LoopSt :=
  if body_a ∈ cfg.ignore_bodies ∨ body_b ∈ cfg.ignore_bodies then s
  else procHit cfg sc now (procHit cfg sc now s body_a body_b) body_b body_a

/-- The `for cp in cps` loop of `step`. -/
def procContacts (cfg : Cfg) (sc : ℕ) (now : ℚ) :
    List (ℕ × ℕ) → LoopSt → LoopSt
  | [], s => s
  | (a, b) :: rest, s => procContacts cfg sc now rest (procPair cfg sc now s a b)

/-- Result of one `step` call: the simulator tuple as modified by the wrapper,
plus the wrapper's new state. -/
structure StepOut (α : Type) where
  obs : α
  reward : ℚ
  done : Bool
  info : List (String × Val)
  state : WrapperState

/-- `AudioIdentityWrapper.step`. The underlying simulator's step result
`(obs, reward, done, info)`, the contact points and the wall clock `now` are
inputs; playback is a stateless side effect and omitted. -/
def stepW {α : Type} (cfg : Cfg) (st : WrapperState) (obs : α)
    (simReward : ℚ) (simDone : Bool) (simInfo : List (String × Val))
    (contacts : List (ℕ × ℕ)) (now : ℚ) : StepOut α :=
  let sc := st.step_count + 1
  let s1 := procContacts cfg sc now contacts
    ⟨st.last_play_time, st.audio_events, false⟩
  let vio : Bool := cfg.terminate_on_silent_touch && s1.silent_violation
    && !simDone
  let done := if vio then true else simDone
  let reward := if vio then cfg.silent_penalty else simReward
  let info0 := if vio then
      aset simInfo "terminated_reason"
        (Val.str "touched_silent_object_with_tool")
    else simInfo
  let info1 := aset info0 "audio_events" (Val.events s1.audio_events)
  let info2 := aset info1 "audio_identity" (Val.idMap cfg.object_sound_map)
  let info3 := aset info2 "audio_obj_emb" (Val.embMap st.audio_obj_emb)
  let info4 := aset info3 "audio_emb_dim" (Val.nat cfg.emb_dim)
  { obs := obs
    reward := reward
    done := done
    info := info4
    state := { st with
      last_play_time := s1.last_play_time
      audio_events := s1.audio_events
      step_count := sc } }

/-- `self.rng.normal(size=(d,))` at stream position `pos`: the next `d`
values of the seeded stream. -/
def normalVec (g : ℕ → ℚ) (pos d : ℕ) : List ℚ :=
  (List.range d).map (fun i => g (pos + i))

/-- The embedding-building loop of `reset`: iterate over the identity map in
insertion order, skip silent entries, draw a fresh vector for each non-silent
entry, advancing the generator. Returns the new map and the new position. -/
def buildEmb (g : ℕ → ℚ) (d : ℕ) :
    List (ℕ × Option String) → ℕ → List (ℕ × List ℚ) × ℕ
  | [], pos => ([], pos)
  | (_, none) :: rest, pos => buildEmb g d rest pos
  | (oid, some _) :: rest, pos =>
    let r := buildEmb g d rest (pos + d)
    ((oid, normalVec g pos d) :: r.1, r.2)

/-- `AudioIdentityWrapper.reset`: clear events, cooldown state and step
counter, rebuild `audio_obj_emb` from the retained (never re-seeded)
generator. -/
def resetW (cfg : Cfg) (st : WrapperState) : WrapperState :=
  let r := buildEmb cfg.g cfg.emb_dim cfg.object_sound_map st.rngPos
  { last_play_time := []
    audio_events := []
    step_count := 0
    rngPos := r.2
    audio_obj_emb := r.1 }

/-- An episode-level operation on the wrapper: a `reset` call or a `step`
call (only the inputs that can affect the wrapper's own state are kept). -/
inductive Op where
  | reset : Op
  | step : List (ℕ × ℕ) → ℚ → Op

/-- Apply one operation to the wrapper state. -/
def applyOp (cfg : Cfg) (st : WrapperState) : Op → WrapperState
  | .reset => resetW cfg st
  | .step contacts now =>
    (stepW cfg st (0 : ℕ) 0 false [] contacts now).state

/-- Run a sequence of operations. -/
def applyOps (cfg : Cfg) (st : WrapperState) : List Op → WrapperState
  | [] => st
  | op :: rest => applyOps cfg (applyOp cfg st op) rest

/-- Number of `reset` calls in an operation sequence. -/
def countResets : List Op → ℕ
  | [] => 0
  | .reset :: rest => countResets rest + 1
  | .step _ _ :: rest => countResets rest

/-- Generator position after `k` resets from a fresh wrapper. -/
def posAfter (cfg : Cfg) : ℕ → ℕ
  | 0 => 0
  | k + 1 =>
    (buildEmb cfg.g cfg.emb_dim cfg.object_sound_map (posAfter cfg k)).2

/-- Embedding map after `k` resets from a fresh wrapper. -/
def embAfter (cfg : Cfg) : ℕ → List (ℕ × List ℚ)
  | 0 => []
  | k + 1 =>
    (buildEmb cfg.g cfg.emb_dim cfg.object_sound_map (posAfter cfg k)).1

/-- The five `info` keys the wrapper may introduce. -/
def specialKeys : List String :=
  ["audio_events", "audio_identity", "audio_obj_emb", "audio_emb_dim",
   "terminated_reason"]

/-! Basic lemmas about the association-list dictionary model. -/

theorem alookup_aset {α β : Type} [DecidableEq α] (m : List (α × β))
    (k k' : α) (v : β) :
    alookup (aset m k v) k' = if k' = k then some v else alookup m k' := by
  induction m with
  | nil => simp [aset, alookup]
  | cons p rest ih =>
    obtain ⟨a, b⟩ := p
    by_cases hak : a = k
    · subst hak
      have h1 : aset ((a, b) :: rest) a v = aset rest a v := by
        simp [aset, List.filter_cons]
      rw [h1, ih]
      by_cases hk : k' = a
      · simp [hk]
      · simp [hk, alookup]
    · have h1 : aset ((a, b) :: rest) k v = (a, b) :: aset rest k v := by
        simp [aset, List.filter_cons, hak]
      rw [h1]
      by_cases hka : k' = a
      · subst hka
        have hkk : ¬ (k' = k) := hak
        simp [alookup, hkk]
      · simp [alookup, hka, ih]

theorem alookup_mem_keys {α β : Type} [DecidableEq α] (m : List (α × β))
    (k : α) (v : β) (h : alookup m k = some v) : k ∈ m.map Prod.fst := by
  induction m with
  | nil => simp [alookup] at h
  | cons p rest ih =>
    obtain ⟨a, b⟩ := p
    by_cases hka : k = a
    · simp [hka]
    · simp [alookup, hka] at h
      simp [ih h]

theorem alookup_eq_none_of_not_mem {α β : Type} [DecidableEq α]
    (m : List (α × β)) (k : α) (h : k ∉ m.map Prod.fst) :
    alookup m k = none := by
  induction m with
  | nil => rfl
  | cons p rest ih =>
    obtain ⟨a, b⟩ := p
    rw [List.map_cons, List.mem_cons] at h
    push_neg at h
    simp [alookup, h.1, ih h.2]

/-! Structural lemmas about the contact-processing loop. -/

theorem procHit_events_append (cfg : Cfg) (sc : ℕ) (now : ℚ) (s : LoopSt)
    (hit other : ℕ) :
    ∃ t, (procHit cfg sc now s hit other).audio_events =
      s.audio_events ++ t := by
  simp only [procHit]
  split
  · exact ⟨[], by simp⟩
  · split
    · exact ⟨[], by simp⟩
    · split
      · split
        · exact ⟨[], by simp⟩
        · exact ⟨[], by simp⟩
      · split
        · exact ⟨[], by simp⟩
        · exact ⟨_, rfl⟩

theorem procHit_silent_violation (cfg : Cfg) (sc : ℕ) (now : ℚ) (s : LoopSt)
    (hit other : ℕ) :
    (procHit cfg sc now s hit other).silent_violation =
      (s.silent_violation ||
        (decide (alookup cfg.object_sound_map hit = some none) &&
         decide (other ∈ cfg.tool_bodies))) := by
  cases hm : alookup cfg.object_sound_map hit with
  | none => simp [procHit, hm]
  | some lbl =>
    cases lbl with
    | none =>
      cases ht : decide (other ∈ cfg.tool_bodies) <;>
        cases ho : decide (other ∉ cfg.ignore_bodies) <;>
          simp [procHit, hm, ht, ho]
    | some sound =>
      cases ht : decide (other ∈ cfg.tool_bodies) <;>
        cases ho : decide (other ∉ cfg.ignore_bodies) <;>
          cases hc : cooldownAllow cfg.cooldown s.last_play_time hit now <;>
            simp [procHit, hm, ht, ho, hc]

theorem procPair_silent_violation (cfg : Cfg) (sc : ℕ) (now : ℚ) (s : LoopSt)
    (a b : ℕ) (ha : a ∉ cfg.ignore_bodies) (hb : b ∉ cfg.ignore_bodies) :
    (procPair cfg sc now s a b).silent_violation =
      ((s.silent_violation ||
        (decide (alookup cfg.object_sound_map a = some none) &&
         decide (b ∈ cfg.tool_bodies))) ||
        (decide (alookup cfg.object_sound_map b = some none) &&
         decide (a ∈ cfg.tool_bodies))) := by
  have hng : ¬ (a ∈ cfg.ignore_bodies ∨ b ∈ cfg.ignore_bodies) := by
    rintro (h | h)
    · exact ha h
    · exact hb h
  rw [procPair, if_neg hng, procHit_silent_violation, procHit_silent_violation]

theorem procPair_violation_mono (cfg : Cfg) (sc : ℕ) (now : ℚ) (s : LoopSt)
    (a b : ℕ) (h : s.silent_violation = true) :
    (procPair cfg sc now s a b).silent_violation = true := by
  rw [procPair]
  split
  · exact h
  · rw [procHit_silent_violation, procHit_silent_violation, h]
    simp

theorem procContacts_violation_mono (cfg : Cfg) (sc : ℕ) (now : ℚ)
    (cps : List (ℕ × ℕ)) :
    ∀ s : LoopSt, s.silent_violation = true →
      (procContacts cfg sc now cps s).silent_violation = true := by
  induction cps with
  | nil => intro s h; exact h
  | cons p rest ih =>
    intro s h
    obtain ⟨a, b⟩ := p
    exact ih _ (procPair_violation_mono cfg sc now s a b h)

theorem procContacts_violation_of_mem (cfg : Cfg) (sc : ℕ) (now : ℚ)
    (a b : ℕ) (ha : a ∉ cfg.ignore_bodies) (hb : b ∉ cfg.ignore_bodies)
    (hvc : (alookup cfg.object_sound_map a = some none ∧
            b ∈ cfg.tool_bodies) ∨
           (alookup cfg.object_sound_map b = some none ∧
            a ∈ cfg.tool_bodies)) :
    ∀ cps : List (ℕ × ℕ), (a, b) ∈ cps →
      ∀ s : LoopSt, (procContacts cfg sc now cps s).silent_violation = true := by
  intro cps
  induction cps with
  | nil => intro h s; cases h
  | cons p rest ih =>
    intro hmem s
    obtain ⟨a', b'⟩ := p
    rcases List.mem_cons.mp hmem with heq | hmem'
    · obtain ⟨rfl, rfl⟩ := Prod.mk.injEq a b a' b' ▸ heq
      have hv : (procPair cfg sc now s a b).silent_violation = true := by
        rw [procPair_silent_violation cfg sc now s a b ha hb]
        rcases hvc with ⟨h1, h2⟩ | ⟨h1, h2⟩ <;> simp [h1, h2]
      exact procContacts_violation_mono cfg sc now rest _ hv
    · exact ih hmem' _

theorem procPair_events_append (cfg : Cfg) (sc : ℕ) (now : ℚ) (s : LoopSt)
    (a b : ℕ) :
    ∃ t, (procPair cfg sc now s a b).audio_events = s.audio_events ++ t := by
  rw [procPair]
  split
  · exact ⟨[], by simp⟩
  · obtain ⟨t1, h1⟩ := procHit_events_append cfg sc now s a b
    obtain ⟨t2, h2⟩ :=
      procHit_events_append cfg sc now (procHit cfg sc now s a b) b a
    exact ⟨t1 ++ t2, by rw [h2, h1, List.append_assoc]⟩

theorem procContacts_events_append (cfg : Cfg) (sc : ℕ) (now : ℚ)
    (cps : List (ℕ × ℕ)) :
    ∀ s : LoopSt,
      ∃ t, (procContacts cfg sc now cps s).audio_events =
        s.audio_events ++ t := by
  induction cps with
  | nil => intro s; exact ⟨[], by simp [procContacts]⟩
  | cons p rest ih =>
    intro s
    obtain ⟨a, b⟩ := p
    obtain ⟨t1, h1⟩ := procPair_events_append cfg sc now s a b
    obtain ⟨t2, h2⟩ := ih (procPair cfg sc now s a b)
    refine ⟨t1 ++ t2, ?_⟩
    simp only [procContacts]
    rw [h2, h1, List.append_assoc]

/-! Sample values used by the concrete witnesses below. -/

def sampleG : ℕ → ℚ := fun n => (n : ℚ)

def cfgA : Cfg :=
  mkCfg sampleG [(7, none), (1, some "thud")] (1/4) [0] [2] true (-5)

def cfgB : Cfg :=
  mkCfg sampleG [(7, none), (1, some "thud")] 0 [0] [2] true (-5)

def cfgC : Cfg :=
  mkCfg sampleG [(7, none), (1, some "thud")] 2 [0] [2] true (-5)

/-- C3: a contact pair in which either body belongs to the ignore-set is
discarded outright: the loop state is returned unchanged, so no event is
appended and no violation candidate is flagged, whatever either body's
label. -/
theorem ignored_pair_no_event_no_violation (cfg : Cfg) (sc : ℕ) (now : ℚ)
    (s : LoopSt) (body_a body_b : ℕ)
    (h : body_a ∈ cfg.ignore_bodies ∨ body_b ∈ cfg.ignore_bodies) :
    procPair cfg sc now s body_a body_b = s := by
  rw [procPair, if_pos h]

theorem ignored_pair_no_event_no_violation_witness :
    ((0 : ℕ) ∈ cfgA.ignore_bodies ∨ (1 : ℕ) ∈ cfgA.ignore_bodies) ∧
      procPair cfgA 1 5 ⟨[], [], false⟩ 0 1 = ⟨[], [], false⟩ :=
  ⟨by decide,
   ignored_pair_no_event_no_violation cfgA 1 5 ⟨[], [], false⟩ 0 1 (by decide)⟩

/-- C1: with termination-on-silent-touch enabled and some non-ignored contact
pair joining a silent-labeled tracked object to a tool body, a step on which
the simulator did not report done returns `done = true`, the configured
silent penalty as reward, and `info["terminated_reason"] =
"touched_silent_object_with_tool"`; if the simulator already reported done,
reward and the termination-reason entry are left untouched. -/
theorem silent_touch_termination {α : Type} (cfg : Cfg) (st : WrapperState)
    (obs : α) (simReward : ℚ) (simInfo : List (String × Val))
    (contacts : List (ℕ × ℕ)) (now : ℚ) (a b : ℕ)
    (hTOS : cfg.terminate_on_silent_touch = true)
    (hmem : (a, b) ∈ contacts)
    (ha : a ∉ cfg.ignore_bodies) (hb : b ∉ cfg.ignore_bodies)
    (hvc : (alookup cfg.object_sound_map a = some none ∧
            b ∈ cfg.tool_bodies) ∨
           (alookup cfg.object_sound_map b = some none ∧
            a ∈ cfg.tool_bodies)) :
    ((stepW cfg st obs simReward false simInfo contacts now).done = true ∧
     (stepW cfg st obs simReward false simInfo contacts now).reward =
       cfg.silent_penalty ∧
     alookup (stepW cfg st obs simReward false simInfo contacts now).info
       "terminated_reason" =
       some (Val.str "touched_silent_object_with_tool")) ∧
    ((stepW cfg st obs simReward true simInfo contacts now).done = true ∧
     (stepW cfg st obs simReward true simInfo contacts now).reward =
       simReward ∧
     alookup (stepW cfg st obs simReward true simInfo contacts now).info
       "terminated_reason" = alookup simInfo "terminated_reason") := by
  have hv : (procContacts cfg (st.step_count + 1) now contacts
      ⟨st.last_play_time, st.audio_events, false⟩).silent_violation = true :=
    procContacts_violation_of_mem cfg (st.step_count + 1) now a b ha hb hvc
      contacts hmem _
  constructor
  · refine ⟨?_, ?_, ?_⟩ <;> simp [stepW, hv, hTOS, alookup_aset]
  · refine ⟨?_, ?_, ?_⟩ <;> simp [stepW, hv, hTOS, alookup_aset]

theorem silent_touch_termination_witness :
    (cfgA.terminate_on_silent_touch = true ∧
     ((7 : ℕ), (2 : ℕ)) ∈ [((7 : ℕ), (2 : ℕ))] ∧
     (7 : ℕ) ∉ cfgA.ignore_bodies ∧ (2 : ℕ) ∉ cfgA.ignore_bodies ∧
     alookup cfgA.object_sound_map 7 = some none ∧
     (2 : ℕ) ∈ cfgA.tool_bodies) ∧
    ((stepW cfgA mkState (0 : ℕ) 3 false [] [(7, 2)] 10).done = true ∧
     (stepW cfgA mkState (0 : ℕ) 3 false [] [(7, 2)] 10).reward =
       cfgA.silent_penalty ∧
     alookup (stepW cfgA mkState (0 : ℕ) 3 false [] [(7, 2)] 10).info
       "terminated_reason" =
       some (Val.str "touched_silent_object_with_tool")) ∧
    ((stepW cfgA mkState (0 : ℕ) 3 true [] [(7, 2)] 10).done = true ∧
     (stepW cfgA mkState (0 : ℕ) 3 true [] [(7, 2)] 10).reward = 3 ∧
     alookup (stepW cfgA mkState (0 : ℕ) 3 true [] [(7, 2)] 10).info
       "terminated_reason" = alookup ([] : List (String × Val))
         "terminated_reason") :=
  ⟨⟨by decide, by decide, by decide, by decide, by decide, by decide⟩,
   silent_touch_termination cfgA mkState (0 : ℕ) 3 [] [(7, 2)] 10 7 2
     (by decide) (by decide) (by decide) (by decide)
     (Or.inl ⟨by decide, by decide⟩)⟩

theorem procHit_not_tracked (cfg : Cfg) (sc : ℕ) (now : ℚ) (s : LoopSt)
    (hit other : ℕ) (h : alookup cfg.object_sound_map hit = none) :
    procHit cfg sc now s hit other = s := by
  simp [procHit, h]

theorem procHit_suppressed (cfg : Cfg) (sc : ℕ) (now : ℚ) (s : LoopSt)
    (hit other : ℕ) (sound : String)
    (hlook : alookup cfg.object_sound_map hit = some (some sound))
    (hc : cooldownAllow cfg.cooldown s.last_play_time hit now = false) :
    procHit cfg sc now s hit other = s := by
  cases ht : decide (other ∈ cfg.tool_bodies) <;>
    cases ho : decide (other ∉ cfg.ignore_bodies) <;>
      simp [procHit, hlook, ht, ho, hc]

/-- C9: `reset` clears the event log, the cooldown state and the step
counter, no matter what the prior episode accumulated in `st`. -/
theorem reset_clears_episode_state (cfg : Cfg) (st : WrapperState) :
    (resetW cfg st).audio_events = [] ∧
    (resetW cfg st).last_play_time = [] ∧
    (∀ oid : ℕ, alookup (resetW cfg st).last_play_time oid = none) ∧
    (resetW cfg st).step_count = 0 :=
  ⟨rfl, rfl, fun _ => rfl, rfl⟩

/-- C2 counterexample: with cooldown 1/4 and no prior emission recorded for
object 1, an emission attempted at time 0 is suppressed and appends no
event, because the code treats a missing cooldown entry as last-emission
time 0 (`self.last_play_time.get(hit_id, 0.0)`); the claim's "no prior
emission exists" disjunct says the emission must be allowed. -/
theorem cooldown_first_emission_counterexample :
    alookup mkState.last_play_time 1 = none ∧
    cooldownAllow cfgA.cooldown mkState.last_play_time 1 0 = false ∧
    (stepW cfgA mkState (0 : ℕ) 0 false [] [(1, 2)] 0).state.audio_events
      = [] := by
  have hc : cooldownAllow cfgA.cooldown ([] : List (ℕ × ℚ)) 1 0
      = false := by
    simp only [cooldownAllow, alookup, Option.getD_none,
      decide_eq_false_iff_not, not_not, sub_zero]
    norm_num [cfgA, mkCfg]
  have h1 : procHit cfgA 1 0 ⟨[], [], false⟩ 1 2 = ⟨[], [], false⟩ :=
    procHit_suppressed cfgA 1 0 ⟨[], [], false⟩ 1 2 "thud"
      (by decide) hc
  have h2 : procHit cfgA 1 0 ⟨[], [], false⟩ 2 1 = ⟨[], [], false⟩ :=
    procHit_not_tracked cfgA 1 0 ⟨[], [], false⟩ 2 1 (by decide)
  have hig : ¬ ((1 : ℕ) ∈ cfgA.ignore_bodies ∨ (2 : ℕ) ∈ cfgA.ignore_bodies) :=
    by decide
  have hpair : procPair cfgA 1 0 ⟨[], [], false⟩ 1 2 = ⟨[], [], false⟩ :=
    by rw [procPair, if_neg hig, h1, h2]
  refine ⟨rfl, hc, ?_⟩
  simp [stepW, procContacts, mkState, hpair]

/-- C2 amended: for a tracked non-silent object in a qualifying (non-ignored)
contact, the emission is allowed — the event appended and `now` recorded as
the object's last-emission time — iff `now` minus the object's effective
last-emission time is at least the cooldown, where an object with no
recorded emission has effective last-emission time 0; a suppressed attempt
leaves the loop state, and hence the event log, unchanged. A zero cooldown
therefore allows emission exactly when `now` is at least the effective
last-emission time. -/
theorem cooldown_gate_behavior (cfg : Cfg) (sc : ℕ) (now : ℚ) (s : LoopSt)
    (hit other : ℕ) (sound : String)
    (hlook : alookup cfg.object_sound_map hit = some (some sound))
    (hother : other ∉ cfg.ignore_bodies) :
    (cooldownAllow cfg.cooldown s.last_play_time hit now = true ↔
       cfg.cooldown ≤ now - ((alookup s.last_play_time hit).getD 0)) ∧
    (cooldownAllow cfg.cooldown s.last_play_time hit now = false →
       procHit cfg sc now s hit other = s) ∧
    (cooldownAllow cfg.cooldown s.last_play_time hit now = true →
       (procHit cfg sc now s hit other).audio_events =
         s.audio_events ++ [⟨sc, hit, sound, other,
           decide (other ∈ cfg.tool_bodies)⟩] ∧
       alookup (procHit cfg sc now s hit other).last_play_time hit =
         some now) := by
  have hot : decide (other ∉ cfg.ignore_bodies) = true := by simp [hother]
  refine ⟨?_, ?_, ?_⟩
  · simp [cooldownAllow, not_lt]
  · intro hc
    simp [procHit, hlook, hot, hc]
  · intro hc
    constructor
    · simp [procHit, hlook, hot, hc]
    · simp [procHit, hlook, hot, hc, alookup_aset]

theorem cooldown_gate_behavior_witness :
    (alookup cfgA.object_sound_map 1 = some (some "thud") ∧
     (3 : ℕ) ∉ cfgA.ignore_bodies) ∧
    ((cooldownAllow cfgA.cooldown (⟨[], [], false⟩ : LoopSt).last_play_time
        1 5 = true ↔
      cfgA.cooldown ≤ 5 -
        ((alookup (⟨[], [], false⟩ : LoopSt).last_play_time 1).getD 0)) ∧
     (cooldownAllow cfgA.cooldown (⟨[], [], false⟩ : LoopSt).last_play_time
        1 5 = false →
      procHit cfgA 1 5 ⟨[], [], false⟩ 1 3 = ⟨[], [], false⟩) ∧
     (cooldownAllow cfgA.cooldown (⟨[], [], false⟩ : LoopSt).last_play_time
        1 5 = true →
      (procHit cfgA 1 5 ⟨[], [], false⟩ 1 3).audio_events =
        (⟨[], [], false⟩ : LoopSt).audio_events ++ [⟨1, 1, "thud", 3,
          decide ((3 : ℕ) ∈ cfgA.tool_bodies)⟩] ∧
      alookup (procHit cfgA 1 5 ⟨[], [], false⟩ 1 3).last_play_time 1 =
        some 5)) :=
  ⟨⟨by decide, by decide⟩,
   cooldown_gate_behavior cfgA 1 5 ⟨[], [], false⟩ 1 3 "thud"
     (by decide) (by decide)⟩

theorem procHit_emit (cfg : Cfg) (sc : ℕ) (now : ℚ) (s : LoopSt)
    (hit other : ℕ) (sound : String)
    (hlook : alookup cfg.object_sound_map hit = some (some sound))
    (hother : other ∉ cfg.ignore_bodies)
    (hc : cooldownAllow cfg.cooldown s.last_play_time hit now = true) :
    procHit cfg sc now s hit other =
      { s with
        audio_events := s.audio_events ++ [⟨sc, hit, sound, other,
          decide (other ∈ cfg.tool_bodies)⟩]
        last_play_time := aset s.last_play_time hit now } := by
  have hot : decide (other ∉ cfg.ignore_bodies) = true := by simp [hother]
  simp [procHit, hlook, hot, hc]

/-! Lemmas about the embedding-building loop of `reset`. -/

theorem buildEmb_keys (g : ℕ → ℚ) (d : ℕ) (m : List (ℕ × Option String)) :
    ∀ pos, ((buildEmb g d m pos).1.map Prod.fst) =
      (m.filter (fun p => p.2.isSome)).map Prod.fst := by
  induction m with
  | nil => intro pos; rfl
  | cons p rest ih =>
    intro pos
    obtain ⟨oid, lbl⟩ := p
    cases lbl with
    | none => simp [buildEmb, List.filter_cons, ih]
    | some snd => simp [buildEmb, List.filter_cons, ih]

theorem buildEmb_keys_nodup (g : ℕ → ℚ) (d : ℕ)
    (m : List (ℕ × Option String)) (hnd : (m.map Prod.fst).Nodup) (pos : ℕ) :
    ((buildEmb g d m pos).1.map Prod.fst).Nodup := by
  rw [buildEmb_keys]
  exact hnd.sublist (List.Sublist.map Prod.fst (List.filter_sublist m))

theorem buildEmb_pos_le (g : ℕ → ℚ) (d : ℕ) (m : List (ℕ × Option String)) :
    ∀ pos, pos ≤ (buildEmb g d m pos).2 := by
  induction m with
  | nil => intro pos; exact le_refl pos
  | cons p rest ih =>
    intro pos
    obtain ⟨oid, lbl⟩ := p
    cases lbl with
    | none => exact ih pos
    | some snd =>
      calc pos ≤ pos + d := Nat.le_add_right pos d
        _ ≤ (buildEmb g d rest (pos + d)).2 := ih (pos + d)

theorem buildEmb_lookup_silent (g : ℕ → ℚ) (d : ℕ)
    (m : List (ℕ × Option String)) (hnd : (m.map Prod.fst).Nodup) (oid : ℕ)
    (h : alookup m oid = some none) :
    ∀ pos, alookup (buildEmb g d m pos).1 oid = none := by
  induction m with
  | nil => intro pos; cases h
  | cons p rest ih =>
    intro pos
    obtain ⟨a, lbl⟩ := p
    rw [List.map_cons, List.nodup_cons] at hnd
    by_cases hoa : oid = a
    · subst hoa
      rw [alookup, if_pos rfl] at h
      obtain rfl : lbl = none := by injection h
      show alookup (buildEmb g d rest pos).1 oid = none
      apply alookup_eq_none_of_not_mem
      rw [buildEmb_keys]
      intro hmem
      apply hnd.1
      obtain ⟨q, hq1, hq2⟩ := List.mem_map.mp hmem
      exact List.mem_map.mpr ⟨q, (List.mem_filter.mp hq1).1, hq2⟩
    · rw [alookup, if_neg hoa] at h
      cases lbl with
      | none => exact ih hnd.2 h pos
      | some snd =>
        show alookup ((a, normalVec g pos d) ::
          (buildEmb g d rest (pos + d)).1) oid = none
        rw [alookup, if_neg hoa]
        exact ih hnd.2 h (pos + d)

theorem buildEmb_lookup_nonsilent (g : ℕ → ℚ) (d : ℕ)
    (m : List (ℕ × Option String)) (hnd : (m.map Prod.fst).Nodup)
    (oid : ℕ) (l : String) (h : alookup m oid = some (some l)) :
    ∀ pos, ∃ off, pos ≤ off ∧ off + d ≤ (buildEmb g d m pos).2 ∧
      alookup (buildEmb g d m pos).1 oid = some (normalVec g off d) := by
  induction m with
  | nil => intro pos; cases h
  | cons p rest ih =>
    intro pos
    obtain ⟨a, lbl⟩ := p
    rw [List.map_cons, List.nodup_cons] at hnd
    by_cases hoa : oid = a
    · subst hoa
      rw [alookup, if_pos rfl] at h
      obtain rfl : lbl = some l := by injection h
      refine ⟨pos, le_refl pos, ?_, ?_⟩
      · show pos + d ≤ (buildEmb g d rest (pos + d)).2
        exact buildEmb_pos_le g d rest (pos + d)
      · show alookup ((oid, normalVec g pos d) ::
          (buildEmb g d rest (pos + d)).1) oid = some (normalVec g pos d)
        rw [alookup, if_pos rfl]
    · rw [alookup, if_neg hoa] at h
      cases lbl with
      | none => exact ih hnd.2 h pos
      | some snd =>
        obtain ⟨off, h1, h2, h3⟩ := ih hnd.2 h (pos + d)
        refine ⟨off, le_trans (Nat.le_add_right pos d) h1, h2, ?_⟩
        show alookup ((a, normalVec g pos d) ::
          (buildEmb g d rest (pos + d)).1) oid = some (normalVec g off d)
        rw [alookup, if_neg hoa]
        exact h3

/-- C4: after `reset`, every non-silent entry of the identity map owns
exactly one embedding, a vector of the configured dimensionality, and every
silent entry owns none; the dimensionality configured at construction is
128. -/
theorem reset_embedding_invariant (cfg : Cfg) (st : WrapperState)
    (hnd : (cfg.object_sound_map.map Prod.fst).Nodup) :
    (∀ oid l, alookup cfg.object_sound_map oid = some (some l) →
       ∃ v, alookup (resetW cfg st).audio_obj_emb oid = some v ∧
         v.length = cfg.emb_dim ∧
         ((resetW cfg st).audio_obj_emb.map Prod.fst).count oid = 1) ∧
    (∀ oid, alookup cfg.object_sound_map oid = some none →
       alookup (resetW cfg st).audio_obj_emb oid = none) ∧
    (∀ g m cd ig tl ts sp, (mkCfg g m cd ig tl ts sp).emb_dim = 128) := by
  refine ⟨?_, ?_, fun _ _ _ _ _ _ _ => rfl⟩
  · intro oid l h
    obtain ⟨off, _, _, h3⟩ := buildEmb_lookup_nonsilent cfg.g cfg.emb_dim
      cfg.object_sound_map hnd oid l h st.rngPos
    refine ⟨normalVec cfg.g off cfg.emb_dim, h3, by simp [normalVec], ?_⟩
    exact List.count_eq_one_of_mem
      (buildEmb_keys_nodup cfg.g cfg.emb_dim cfg.object_sound_map hnd
        st.rngPos)
      (alookup_mem_keys _ _ _ h3)
  · intro oid h
    exact buildEmb_lookup_silent cfg.g cfg.emb_dim cfg.object_sound_map hnd
      oid h st.rngPos

theorem reset_embedding_invariant_witness :
    (cfgA.object_sound_map.map Prod.fst).Nodup ∧
    ((∀ oid l, alookup cfgA.object_sound_map oid = some (some l) →
       ∃ v, alookup (resetW cfgA mkState).audio_obj_emb oid = some v ∧
         v.length = cfgA.emb_dim ∧
         ((resetW cfgA mkState).audio_obj_emb.map Prod.fst).count oid = 1) ∧
     (∀ oid, alookup cfgA.object_sound_map oid = some none →
       alookup (resetW cfgA mkState).audio_obj_emb oid = none) ∧
     (∀ g m cd ig tl ts sp, (mkCfg g m cd ig tl ts sp).emb_dim = 128)) :=
  ⟨by decide, reset_embedding_invariant cfgA mkState (by decide)⟩

/-- C5: construction does not reject an identity map that collides with the
ignore-set: the wrapper is built as usual (no validation exists in
`__init__`), and a contact involving the colliding object id 1 is then
silently discarded by the ignore filter at runtime — no event, no
violation, no error. -/
theorem construction_accepts_colliding_ids :
    ((1 : ℕ) ∈ (mkCfg sampleG [(1, some "thud")] 2 [1] [2] true
        (-1)).ignore_bodies ∧
     alookup (mkCfg sampleG [(1, some "thud")] 2 [1] [2] true
        (-1)).object_sound_map 1 = some (some "thud")) ∧
    mkState = ⟨[], [], 0, 0, []⟩ ∧
    (stepW (mkCfg sampleG [(1, some "thud")] 2 [1] [2] true (-1)) mkState
        (0 : ℕ) 0 false [] [(1, 2)] 5).state.audio_events = [] ∧
    (stepW (mkCfg sampleG [(1, some "thud")] 2 [1] [2] true (-1)) mkState
        (0 : ℕ) 0 false [] [(1, 2)] 5).done = false := by
  refine ⟨⟨by decide, by decide⟩, rfl, ?_, ?_⟩ <;>
    simp [stepW, procContacts, procPair, mkState, mkCfg]

/-- C7: when a non-silent tracked object touches a non-ignored body that is
not a tool (object-to-object contact) and its cooldown permits, an event
with `tool_touch = false` is recorded for it, and no violation candidate is
flagged for the pair, whatever the other body's label; the identity map is
assumed disjoint from the tool-set as the spec's data-model invariant
requires. -/
theorem object_contact_emits_without_violation (cfg : Cfg) (sc : ℕ)
    (now : ℚ) (s : LoopSt) (a b : ℕ) (sound : String)
    (hdisj : ∀ k ∈ cfg.object_sound_map.map Prod.fst, k ∉ cfg.tool_bodies)
    (ha : a ∉ cfg.ignore_bodies) (hb : b ∉ cfg.ignore_bodies)
    (hbtool : b ∉ cfg.tool_bodies)
    (hlook : alookup cfg.object_sound_map a = some (some sound))
    (hcool : cooldownAllow cfg.cooldown s.last_play_time a now = true) :
    (⟨sc, a, sound, b, false⟩ : ContactEvent) ∈
      (procPair cfg sc now s a b).audio_events ∧
    (procPair cfg sc now s a b).silent_violation = s.silent_violation := by
  have hng : ¬ (a ∈ cfg.ignore_bodies ∨ b ∈ cfg.ignore_bodies) := by
    rintro (h | h)
    · exact ha h
    · exact hb h
  have hbt : decide (b ∈ cfg.tool_bodies) = false := by simp [hbtool]
  have hat : decide (a ∈ cfg.tool_bodies) = false := by
    simp [hdisj a (alookup_mem_keys _ _ _ hlook)]
  have hemit := procHit_emit cfg sc now s a b sound hlook hb hcool
  rw [hbt] at hemit
  constructor
  · rw [procPair, if_neg hng, hemit]
    obtain ⟨t2, h2⟩ := procHit_events_append cfg sc now
      ({ s with
        audio_events := s.audio_events ++ [⟨sc, a, sound, b, false⟩]
        last_play_time := aset s.last_play_time a now }) b a
    rw [h2]
    simp
  · rw [procPair, if_neg hng, procHit_silent_violation,
      procHit_silent_violation]
    simp [hlook, hat]

theorem object_contact_emits_without_violation_witness :
    ((∀ k ∈ cfgB.object_sound_map.map Prod.fst, k ∉ cfgB.tool_bodies) ∧
     (1 : ℕ) ∉ cfgB.ignore_bodies ∧ (3 : ℕ) ∉ cfgB.ignore_bodies ∧
     (3 : ℕ) ∉ cfgB.tool_bodies ∧
     alookup cfgB.object_sound_map 1 = some (some "thud") ∧
     cooldownAllow cfgB.cooldown ([] : List (ℕ × ℚ)) 1 0 = true) ∧
    ((⟨4, 1, "thud", 3, false⟩ : ContactEvent) ∈
      (procPair cfgB 4 0 ⟨[], [], false⟩ 1 3).audio_events ∧
     (procPair cfgB 4 0 ⟨[], [], false⟩ 1 3).silent_violation = false) :=
  ⟨⟨by decide, by decide, by decide, by decide, by decide,
    by simp [cooldownAllow, alookup, cfgB, mkCfg]⟩,
   object_contact_emits_without_violation cfgB 4 0 ⟨[], [], false⟩ 1 3
     "thud" (by decide) (by decide) (by decide) (by decide) (by decide)
     (by simp [cooldownAllow, alookup, cfgB, mkCfg])⟩

/-- C6: each step returns the observation unchanged and augments `info` with
exactly the four audio keys — the event list so far, the static identity
map, the embedding map, the embedding dimensionality — plus the
termination-reason key exactly when the violation policy forces
termination; every key outside these five keeps the simulator's value (the
hypothesis says the simulator's info uses none of the reserved keys). -/
theorem step_info_augmentation {α : Type} (cfg : Cfg) (st : WrapperState)
    (obs : α) (simReward : ℚ) (simDone : Bool)
    (simInfo : List (String × Val)) (contacts : List (ℕ × ℕ)) (now : ℚ)
    (hfresh : ∀ k ∈ specialKeys, alookup simInfo k = none) :
    (stepW cfg st obs simReward simDone simInfo contacts now).obs = obs ∧
    alookup (stepW cfg st obs simReward simDone simInfo contacts now).info
      "audio_events" = some (Val.events
        (stepW cfg st obs simReward simDone simInfo contacts
          now).state.audio_events) ∧
    alookup (stepW cfg st obs simReward simDone simInfo contacts now).info
      "audio_identity" = some (Val.idMap cfg.object_sound_map) ∧
    alookup (stepW cfg st obs simReward simDone simInfo contacts now).info
      "audio_obj_emb" = some (Val.embMap st.audio_obj_emb) ∧
    alookup (stepW cfg st obs simReward simDone simInfo contacts now).info
      "audio_emb_dim" = some (Val.nat cfg.emb_dim) ∧
    (alookup (stepW cfg st obs simReward simDone simInfo contacts now).info
      "terminated_reason").isSome = (cfg.terminate_on_silent_touch &&
        (procContacts cfg (st.step_count + 1) now contacts
          ⟨st.last_play_time, st.audio_events, false⟩).silent_violation &&
        !simDone) ∧
    (∀ k, k ∉ specialKeys →
      alookup (stepW cfg st obs simReward simDone simInfo contacts now).info
        k = alookup simInfo k) := by
  have htr : alookup simInfo "terminated_reason" = none :=
    hfresh "terminated_reason" (by simp [specialKeys])
  cases hv : (cfg.terminate_on_silent_touch &&
      (procContacts cfg (st.step_count + 1) now contacts
        ⟨st.last_play_time, st.audio_events, false⟩).silent_violation &&
      !simDone) with
  | true =>
    refine ⟨rfl, ?_, ?_, ?_, ?_, ?_, ?_⟩
    · simp [stepW, hv, alookup_aset]
    · simp [stepW, hv, alookup_aset]
    · simp [stepW, hv, alookup_aset]
    · simp [stepW, hv, alookup_aset]
    · simp [stepW, hv, alookup_aset]
    · intro k hk
      simp [specialKeys] at hk
      push_neg at hk
      obtain ⟨h1, h2, h3, h4, h5⟩ := hk
      simp [stepW, hv, alookup_aset, h1, h2, h3, h4, h5]
  | false =>
    refine ⟨rfl, ?_, ?_, ?_, ?_, ?_, ?_⟩
    · simp [stepW, hv, alookup_aset]
    · simp [stepW, hv, alookup_aset]
    · simp [stepW, hv, alookup_aset]
    · simp [stepW, hv, alookup_aset]
    · simp [stepW, hv, alookup_aset, htr]
    · intro k hk
      simp [specialKeys] at hk
      push_neg at hk
      obtain ⟨h1, h2, h3, h4, h5⟩ := hk
      simp [stepW, hv, alookup_aset, h1, h2, h3, h4, h5]

theorem step_info_augmentation_witness :
    (∀ k ∈ specialKeys,
      alookup [("task_name", Val.str "sweep")] k = none) ∧
    ((stepW cfgA mkState (0 : ℕ) 2 false [("task_name", Val.str "sweep")]
        [] 0).obs = 0 ∧
     alookup (stepW cfgA mkState (0 : ℕ) 2 false
        [("task_name", Val.str "sweep")] [] 0).info "audio_events" =
       some (Val.events (stepW cfgA mkState (0 : ℕ) 2 false
         [("task_name", Val.str "sweep")] [] 0).state.audio_events) ∧
     alookup (stepW cfgA mkState (0 : ℕ) 2 false
        [("task_name", Val.str "sweep")] [] 0).info "audio_identity" =
       some (Val.idMap cfgA.object_sound_map) ∧
     alookup (stepW cfgA mkState (0 : ℕ) 2 false
        [("task_name", Val.str "sweep")] [] 0).info "audio_obj_emb" =
       some (Val.embMap mkState.audio_obj_emb) ∧
     alookup (stepW cfgA mkState (0 : ℕ) 2 false
        [("task_name", Val.str "sweep")] [] 0).info "audio_emb_dim" =
       some (Val.nat cfgA.emb_dim) ∧
     (alookup (stepW cfgA mkState (0 : ℕ) 2 false
        [("task_name", Val.str "sweep")] [] 0).info
        "terminated_reason").isSome = (cfgA.terminate_on_silent_touch &&
          (procContacts cfgA (mkState.step_count + 1) 0 []
            ⟨mkState.last_play_time, mkState.audio_events,
              false⟩).silent_violation && !false) ∧
     (∀ k, k ∉ specialKeys →
       alookup (stepW cfgA mkState (0 : ℕ) 2 false
         [("task_name", Val.str "sweep")] [] 0).info k =
         alookup [("task_name", Val.str "sweep")] k)) :=
  ⟨by decide,
   step_info_augmentation cfgA mkState (0 : ℕ) 2 false
     [("task_name", Val.str "sweep")] [] 0 (by decide)⟩

/-! Lemmas for the generator lifecycle: `step` never touches the generator
position or the embedding map; `reset` advances them deterministically. -/

theorem stepW_rng_emb {α : Type} (cfg : Cfg) (st : WrapperState) (obs : α)
    (simReward : ℚ) (simDone : Bool) (simInfo : List (String × Val))
    (contacts : List (ℕ × ℕ)) (now : ℚ) :
    (stepW cfg st obs simReward simDone simInfo contacts now).state.rngPos =
      st.rngPos ∧
    (stepW cfg st obs simReward simDone simInfo contacts
      now).state.audio_obj_emb = st.audio_obj_emb :=
  ⟨rfl, rfl⟩

theorem countResets_append (xs ys : List Op) :
    countResets (xs ++ ys) = countResets xs + countResets ys := by
  induction xs with
  | nil => simp [countResets]
  | cons op rest ih =>
    cases op with
    | reset => simp [countResets, ih]; omega
    | step c n => simp [countResets, ih]

theorem applyOps_rng_spec (cfg : Cfg) :
    ∀ (ops : List Op) (st : WrapperState) (k : ℕ),
      st.rngPos = posAfter cfg k → st.audio_obj_emb = embAfter cfg k →
      (applyOps cfg st ops).rngPos = posAfter cfg (k + countResets ops) ∧
      (applyOps cfg st ops).audio_obj_emb =
        embAfter cfg (k + countResets ops) := by
  intro ops
  induction ops with
  | nil =>
    intro st k h1 h2
    constructor
    · simpa [applyOps, countResets] using h1
    · simpa [applyOps, countResets] using h2
  | cons op rest ih =>
    intro st k h1 h2
    cases op with
    | reset =>
      have h1' : (resetW cfg st).rngPos = posAfter cfg (k + 1) := by
        show (buildEmb cfg.g cfg.emb_dim cfg.object_sound_map st.rngPos).2 =
          posAfter cfg (k + 1)
        rw [h1]
        rfl
      have h2' : (resetW cfg st).audio_obj_emb = embAfter cfg (k + 1) := by
        show (buildEmb cfg.g cfg.emb_dim cfg.object_sound_map st.rngPos).1 =
          embAfter cfg (k + 1)
        rw [h1]
        rfl
      have hrec := ih (resetW cfg st) (k + 1) h1' h2'
      have harith : k + 1 + countResets rest =
          k + countResets (Op.reset :: rest) := by
        simp [countResets]
        omega
      constructor
      · show (applyOps cfg (resetW cfg st) rest).rngPos = _
        rw [hrec.1, harith]
      · show (applyOps cfg (resetW cfg st) rest).audio_obj_emb = _
        rw [hrec.2, harith]
    | step c n =>
      have hs := stepW_rng_emb cfg st (0 : ℕ) 0 false [] c n
      have hrec := ih ((stepW cfg st (0 : ℕ) 0 false [] c n).state) k
        (hs.1.trans h1) (hs.2.trans h2)
      constructor
      · show (applyOps cfg
            ((stepW cfg st (0 : ℕ) 0 false [] c n).state) rest).rngPos = _
        rw [hrec.1]
        rfl
      · show (applyOps cfg ((stepW cfg st (0 : ℕ) 0 false [] c
            n).state) rest).audio_obj_emb = _
        rw [hrec.2]
        rfl

theorem normalVec_head (g : ℕ → ℚ) (off d : ℕ) (hd : 0 < d) :
    (normalVec g off d).head? = some (g off) := by
  cases d with
  | zero => cases hd
  | succ e =>
    simp [normalVec, List.range_succ_eq_map]

theorem normalVec_ne (g : ℕ → ℚ) (hinj : Function.Injective g)
    (off1 off2 d : ℕ) (hd : 0 < d) (hne : off1 ≠ off2) :
    normalVec g off1 d ≠ normalVec g off2 d := by
  intro h
  have hh := congrArg List.head? h
  rw [normalVec_head g off1 d hd, normalVec_head g off2 d hd] at hh
  exact hne (hinj (by injection hh))

/-- C8: the generator is created once at construction and never re-seeded:
the embedding map after any operation sequence depends only on the number of
resets performed (so two runs with identical construction and reset/step
sequences agree), while — for an injective generator stream — two
consecutive resets assign a non-silent object two different embedding
vectors, because the second reset reads strictly later stream positions. -/
theorem embedding_reproducibility (cfg : Cfg) (a : ℕ) (l : String)
    (hinj : Function.Injective cfg.g) (hd : 0 < cfg.emb_dim)
    (hnd : (cfg.object_sound_map.map Prod.fst).Nodup)
    (ha : alookup cfg.object_sound_map a = some (some l)) :
    (∀ ops1 ops2 : List Op, countResets ops1 = countResets ops2 →
       (applyOps cfg mkState ops1).audio_obj_emb =
       (applyOps cfg mkState ops2).audio_obj_emb) ∧
    (∀ ops : List Op,
       alookup (applyOps cfg mkState (ops ++ [Op.reset])).audio_obj_emb a ≠
       alookup (applyOps cfg mkState
         (ops ++ [Op.reset, Op.reset])).audio_obj_emb a) := by
  constructor
  · intro ops1 ops2 hcount
    have e1 := (applyOps_rng_spec cfg ops1 mkState 0 rfl rfl).2
    have e2 := (applyOps_rng_spec cfg ops2 mkState 0 rfl rfl).2
    rw [e1, e2, hcount]
  · intro ops
    have e1 := (applyOps_rng_spec cfg (ops ++ [Op.reset]) mkState 0 rfl rfl).2
    have e2 := (applyOps_rng_spec cfg (ops ++ [Op.reset, Op.reset])
      mkState 0 rfl rfl).2
    rw [e1, e2, countResets_append, countResets_append]
    have hc1 : countResets [Op.reset] = 1 := rfl
    have hc2 : countResets [Op.reset, Op.reset] = 2 := rfl
    rw [hc1, hc2]
    obtain ⟨off1, ho1a, ho1b, hl1⟩ := buildEmb_lookup_nonsilent cfg.g
      cfg.emb_dim cfg.object_sound_map hnd a l ha
      (posAfter cfg (countResets ops))
    obtain ⟨off2, ho2a, ho2b, hl2⟩ := buildEmb_lookup_nonsilent cfg.g
      cfg.emb_dim cfg.object_sound_map hnd a l ha
      (posAfter cfg (countResets ops + 1))
    have he1 : embAfter cfg (0 + (countResets ops + 1)) =
        (buildEmb cfg.g cfg.emb_dim cfg.object_sound_map
          (posAfter cfg (countResets ops))).1 := by
      rw [Nat.zero_add]
      rfl
    have he2 : embAfter cfg (0 + (countResets ops + 2)) =
        (buildEmb cfg.g cfg.emb_dim cfg.object_sound_map
          (posAfter cfg (countResets ops + 1))).1 := by
      rw [Nat.zero_add]
      rfl
    rw [he1, he2, hl1, hl2]
    intro h
    have hword : off1 + cfg.emb_dim ≤ off2 := le_trans ho1b ho2a
    have hne : off1 ≠ off2 := by omega
    exact normalVec_ne cfg.g hinj off1 off2 cfg.emb_dim hd hne
      (by injection h)

theorem embedding_reproducibility_witness :
    (Function.Injective cfgA.g ∧ 0 < cfgA.emb_dim ∧
     (cfgA.object_sound_map.map Prod.fst).Nodup ∧
     alookup cfgA.object_sound_map 1 = some (some "thud")) ∧
    ((∀ ops1 ops2 : List Op, countResets ops1 = countResets ops2 →
       (applyOps cfgA mkState ops1).audio_obj_emb =
       (applyOps cfgA mkState ops2).audio_obj_emb) ∧
     (∀ ops : List Op,
       alookup (applyOps cfgA mkState (ops ++ [Op.reset])).audio_obj_emb 1 ≠
       alookup (applyOps cfgA mkState
         (ops ++ [Op.reset, Op.reset])).audio_obj_emb 1)) :=
  ⟨⟨Nat.cast_injective, by decide, by decide, by decide⟩,
   embedding_reproducibility cfgA 1 "thud" Nat.cast_injective (by decide)
     (by decide) (by decide)⟩

/-- Specification of a fragment of the contact loop relative to the single
per-step timestamp `now`: the events it appends, the stamping of `now` into
the cooldown state, and the fact that each appended event's object had not
yet been stamped `now` when its event fired. -/
def EmitSpec (now : ℚ) (s r : LoopSt) (t : List ContactEvent) : Prop :=
  r.audio_events = s.audio_events ++ t ∧
  (∀ e ∈ t, alookup r.last_play_time e.object_id = some now) ∧
  (∀ oid : ℕ, alookup s.last_play_time oid = some now →
    alookup r.last_play_time oid = some now) ∧
  (∀ e ∈ t, alookup s.last_play_time e.object_id ≠ some now) ∧
  (t.map ContactEvent.object_id).Nodup

theorem emitSpec_nil (now : ℚ) (s r : LoopSt)
    (he : r.audio_events = s.audio_events)
    (hl : r.last_play_time = s.last_play_time) : EmitSpec now s r [] := by
  refine ⟨by simp [he], by simp, ?_, by simp, by simp⟩
  intro oid h
  rw [hl]
  exact h

theorem emitSpec_trans (now : ℚ) (s r u : LoopSt)
    (t1 t2 : List ContactEvent)
    (h1 : EmitSpec now s r t1) (h2 : EmitSpec now r u t2) :
    EmitSpec now s u (t1 ++ t2) := by
  obtain ⟨e1, p1, q1, n1, d1⟩ := h1
  obtain ⟨e2, p2, q2, n2, d2⟩ := h2
  refine ⟨?_, ?_, ?_, ?_, ?_⟩
  · rw [e2, e1, List.append_assoc]
  · intro e he
    rcases List.mem_append.mp he with h | h
    · exact q2 _ (p1 e h)
    · exact p2 e h
  · intro oid h
    exact q2 _ (q1 _ h)
  · intro e he
    rcases List.mem_append.mp he with h | h
    · exact n1 e h
    · intro hcontra
      exact n2 e h (q1 _ hcontra)
  · rw [List.map_append, List.nodup_append]
    refine ⟨d1, d2, ?_⟩
    intro x hx1 hx2
    obtain ⟨ea, hea, rfl⟩ := List.mem_map.mp hx1
    obtain ⟨eb, heb, hobj⟩ := List.mem_map.mp hx2
    have hsome := p1 ea hea
    have hnone := n2 eb heb
    rw [hobj] at hnone
    exact hnone hsome

theorem procHit_cases (cfg : Cfg) (sc : ℕ) (now : ℚ) (s : LoopSt)
    (hit other : ℕ) :
    ((procHit cfg sc now s hit other).audio_events = s.audio_events ∧
     (procHit cfg sc now s hit other).last_play_time = s.last_play_time) ∨
    (∃ sound, alookup cfg.object_sound_map hit = some (some sound) ∧
      cooldownAllow cfg.cooldown s.last_play_time hit now = true ∧
      (procHit cfg sc now s hit other).audio_events = s.audio_events ++
        [⟨sc, hit, sound, other, decide (other ∈ cfg.tool_bodies)⟩] ∧
      (procHit cfg sc now s hit other).last_play_time =
        aset s.last_play_time hit now) := by
  cases hm : alookup cfg.object_sound_map hit with
  | none => exact Or.inl ⟨by simp [procHit, hm], by simp [procHit, hm]⟩
  | some lbl =>
    cases lbl with
    | none =>
      left
      cases ht : decide (other ∈ cfg.tool_bodies) <;>
        cases ho : decide (other ∉ cfg.ignore_bodies) <;>
          exact ⟨by simp [procHit, hm, ht, ho], by simp [procHit, hm, ht, ho]⟩
    | some sound =>
      cases hc : cooldownAllow cfg.cooldown s.last_play_time hit now with
      | false =>
        left
        cases ht : decide (other ∈ cfg.tool_bodies) <;>
          cases ho : decide (other ∉ cfg.ignore_bodies) <;>
            exact ⟨by simp [procHit, hm, ht, ho, hc],
              by simp [procHit, hm, ht, ho, hc]⟩
      | true =>
        cases ht : decide (other ∈ cfg.tool_bodies) <;>
          cases ho : decide (other ∉ cfg.ignore_bodies)
        · exact Or.inl ⟨by simp [procHit, hm, ht, ho],
            by simp [procHit, hm, ht, ho]⟩
        · exact Or.inr ⟨sound, rfl, rfl, by simp [procHit, hm, ht, ho, hc],
            by simp [procHit, hm, ht, ho, hc]⟩
        · exact Or.inr ⟨sound, rfl, rfl, by simp [procHit, hm, ht, ho, hc],
            by simp [procHit, hm, ht, ho, hc]⟩
        · exact Or.inr ⟨sound, rfl, rfl, by simp [procHit, hm, ht, ho, hc],
            by simp [procHit, hm, ht, ho, hc]⟩

theorem procHit_emitSpec (cfg : Cfg) (sc : ℕ) (now : ℚ) (s : LoopSt)
    (hit other : ℕ) (hcd : 0 < cfg.cooldown) :
    ∃ t, EmitSpec now s (procHit cfg sc now s hit other) t := by
  rcases procHit_cases cfg sc now s hit other with ⟨he, hl⟩ |
    ⟨sound, hm, hc, he, hl⟩
  · exact ⟨[], emitSpec_nil now s _ he hl⟩
  · refine ⟨[⟨sc, hit, sound, other, decide (other ∈ cfg.tool_bodies)⟩],
      he, ?_, ?_, ?_, by simp⟩
    · intro e hmem
      rw [List.mem_singleton] at hmem
      subst hmem
      rw [hl]
      simp [alookup_aset]
    · intro oid hoid
      rw [hl, alookup_aset]
      split
      · rfl
      · exact hoid
    · intro e hmem
      rw [List.mem_singleton] at hmem
      subst hmem
      intro hnoweq
      have hgetd : (alookup s.last_play_time hit).getD 0 = now := by
        show (alookup s.last_play_time
          (⟨sc, hit, sound, other,
            decide (other ∈ cfg.tool_bodies)⟩ : ContactEvent).object_id).getD
          0 = now
        rw [hnoweq]
        rfl
      rw [cooldownAllow] at hc
      simp only [decide_eq_true_eq, not_lt] at hc
      rw [hgetd] at hc
      simp only [sub_self] at hc
      exact absurd (lt_of_lt_of_le hcd hc) (lt_irrefl 0)

theorem procPair_emitSpec (cfg : Cfg) (sc : ℕ) (now : ℚ) (s : LoopSt)
    (a b : ℕ) (hcd : 0 < cfg.cooldown) :
    ∃ t, EmitSpec now s (procPair cfg sc now s a b) t := by
  rw [procPair]
  split
  · exact ⟨[], emitSpec_nil now s s rfl rfl⟩
  · obtain ⟨t1, h1⟩ := procHit_emitSpec cfg sc now s a b hcd
    obtain ⟨t2, h2⟩ := procHit_emitSpec cfg sc now
      (procHit cfg sc now s a b) b a hcd
    exact ⟨t1 ++ t2, emitSpec_trans now s _ _ t1 t2 h1 h2⟩

theorem procContacts_emitSpec (cfg : Cfg) (sc : ℕ) (now : ℚ)
    (hcd : 0 < cfg.cooldown) :
    ∀ (cps : List (ℕ × ℕ)) (s : LoopSt),
      ∃ t, EmitSpec now s (procContacts cfg sc now cps s) t := by
  intro cps
  induction cps with
  | nil => intro s; exact ⟨[], emitSpec_nil now s s rfl rfl⟩
  | cons p rest ih =>
    intro s
    obtain ⟨a, b⟩ := p
    obtain ⟨t1, h1⟩ := procPair_emitSpec cfg sc now s a b hcd
    obtain ⟨t2, h2⟩ := ih (procPair cfg sc now s a b)
    exact ⟨t1 ++ t2, emitSpec_trans now s _ _ t1 t2 h1 h2⟩

/-- C10: with a strictly positive cooldown, one `step` call appends at most
one event per object id, whatever the contact list: the single timestamp
`now` sampled for the step is stamped into the cooldown state at an
object's first emission, blocking that object for the rest of the step. -/
theorem step_at_most_one_event_per_object {α : Type} (cfg : Cfg)
    (st : WrapperState) (obs : α) (simReward : ℚ) (simDone : Bool)
    (simInfo : List (String × Val)) (contacts : List (ℕ × ℕ)) (now : ℚ)
    (hcd : 0 < cfg.cooldown) :
    ∃ t, (stepW cfg st obs simReward simDone simInfo contacts
        now).state.audio_events = st.audio_events ++ t ∧
      (t.map ContactEvent.object_id).Nodup := by
  obtain ⟨t, hspec⟩ := procContacts_emitSpec cfg (st.step_count + 1) now hcd
    contacts ⟨st.last_play_time, st.audio_events, false⟩
  exact ⟨t, hspec.1, hspec.2.2.2.2⟩

theorem step_at_most_one_event_per_object_witness :
    0 < cfgC.cooldown ∧
    ∃ t, (stepW cfgC mkState (0 : ℕ) 0 false [] [(1, 3), (3, 1), (1, 4)]
        5).state.audio_events = mkState.audio_events ++ t ∧
      (t.map ContactEvent.object_id).Nodup :=
  ⟨by decide,
   step_at_most_one_event_per_object cfgC mkState (0 : ℕ) 0 false []
     [(1, 3), (3, 1), (1, 4)] 5 (by decide)⟩

end VimaAudio
